import Mathlib

/-!
Shallow embedding of `src/audio/kazakh_to_bashkir_corrector.py`
(class `KazakhToBashkirCorrector` and its module-level helpers).

Strings are modelled as `List Char`; each Python `re.sub` call is embedded
as a dedicated left-to-right scanner that reproduces Python's leftmost,
non-overlapping, resume-after-match substitution semantics.  Fuel arguments
(always instantiated with the length of the scanned list) make the scanners
structurally recursive; every scanner consumes at least one character per
step, so the fuel never runs out on the initial call.
-/

namespace K2B

/-! ### Python character-class semantics -/

/-- Python whitespace characters (`str.split`, `str.strip`, regex `\s`)
restricted to the ASCII range; no other whitespace occurs in the
corrector's tables or in the repository's fixtures. -/
def pySpaceChars : List Char := [' ', '\t', '\n', '\x0d', '\x0b', '\x0c']

def isPySpace (c : Char) : Bool := pySpaceChars.contains c

/-- A codepoint in the Cyrillic block that is a letter (the block is all
letters except the symbol/combining range U+0482..U+0489). -/
def isCyrLetter (c : Char) : Bool :=
  (0x400 ≤ c.toNat && c.toNat ≤ 0x4FF) &&
    !(0x482 ≤ c.toNat && c.toNat ≤ 0x489)

/-- Python `str.isalnum` / regex `\w` (without the underscore) restricted to
ASCII alphanumerics plus Cyrillic letters — the only alphabets the
corrector's tables and fixtures use. -/
def pyIsAlnum (c : Char) : Bool := c.isAlphanum || isCyrLetter c

/-- Regex `\w` (word character) as used by Python's `\b`. -/
def isWordChar (c : Char) : Bool := pyIsAlnum c || c = '_'

/-- Uppercase test covering ASCII and the Cyrillic block.  In the Cyrillic
block: U+0400..U+040F and U+0410..U+042F are uppercase; in the paired
ranges U+0460..U+0481, U+048A..U+04BF, U+04D0..U+04FF the even codepoint
of each pair is the uppercase one; U+04C0 is uppercase and in
U+04C1..U+04CE the odd codepoint is uppercase. -/
def isUpperC (c : Char) : Bool :=
  let n := c.toNat
  c.isUpper ||
  (0x400 ≤ n && n ≤ 0x42F) ||
  (((0x460 ≤ n && n ≤ 0x481) || (0x48A ≤ n && n ≤ 0x4BF) ||
      (0x4D0 ≤ n && n ≤ 0x4FF)) && n % 2 = 0) ||
  n = 0x4C0 ||
  ((0x4C1 ≤ n && n ≤ 0x4CE) && n % 2 = 1)

/-- Lowercase test, the mirror image of `isUpperC`. -/
def isLowerC (c : Char) : Bool :=
  let n := c.toNat
  c.isLower ||
  (0x430 ≤ n && n ≤ 0x45F) ||
  (((0x460 ≤ n && n ≤ 0x481) || (0x48A ≤ n && n ≤ 0x4BF) ||
      (0x4D0 ≤ n && n ≤ 0x4FF)) && n % 2 = 1) ||
  n = 0x4CF ||
  ((0x4C1 ≤ n && n ≤ 0x4CE) && n % 2 = 0)

def isCasedC (c : Char) : Bool := isUpperC c || isLowerC c

/-- Python `str.lower` on one character (ASCII and Cyrillic). -/
def lowerChar (c : Char) : Char :=
  let n := c.toNat
  if 0x410 ≤ n ∧ n ≤ 0x42F then Char.ofNat (n + 0x20)
  else if 0x400 ≤ n ∧ n ≤ 0x40F then Char.ofNat (n + 0x50)
  else if ((0x460 ≤ n ∧ n ≤ 0x481) ∨ (0x48A ≤ n ∧ n ≤ 0x4BF) ∨
      (0x4D0 ≤ n ∧ n ≤ 0x4FF)) ∧ n % 2 = 0 then Char.ofNat (n + 1)
  else if n = 0x4C0 then Char.ofNat 0x4CF
  else if (0x4C1 ≤ n ∧ n ≤ 0x4CE) ∧ n % 2 = 1 then Char.ofNat (n + 1)
  else c.toLower

/-- Python `str.upper` on one character (ASCII and Cyrillic). -/
def upperChar (c : Char) : Char :=
  let n := c.toNat
  if 0x430 ≤ n ∧ n ≤ 0x44F then Char.ofNat (n - 0x20)
  else if 0x450 ≤ n ∧ n ≤ 0x45F then Char.ofNat (n - 0x50)
  else if ((0x460 ≤ n ∧ n ≤ 0x481) ∨ (0x48A ≤ n ∧ n ≤ 0x4BF) ∨
      (0x4D0 ≤ n ∧ n ≤ 0x4FF)) ∧ n % 2 = 1 then Char.ofNat (n - 1)
  else if n = 0x4CF then Char.ofNat 0x4C0
  else if (0x4C2 ≤ n ∧ n ≤ 0x4CE) ∧ n % 2 = 0 then Char.ofNat (n - 1)
  else c.toUpper

def pyLower (s : List Char) : List Char := s.map lowerChar

def pyUpper (s : List Char) : List Char := s.map upperChar

/-- Python `str.title`: a cased character not preceded by a cased character
is uppercased, all other cased characters are lowercased. -/
def pyTitleGo : Bool → List Char → List Char
  | _, [] => []
  | prevCased, c :: cs =>
      (if prevCased then lowerChar c else upperChar c) :: pyTitleGo (isCasedC c) cs

def pyTitle (s : List Char) : List Char := pyTitleGo false s

/-- Python `str.istitle` helper: tracks whether a cased character was seen
and whether the previous character was cased. -/
def pyIsTitleGo : Bool → Bool → List Char → Bool
  | sawCased, _, [] => sawCased
  | sawCased, prevCased, c :: cs =>
      if isUpperC c then (!prevCased) && pyIsTitleGo true true cs
      else if isLowerC c then prevCased && pyIsTitleGo true true cs
      else pyIsTitleGo sawCased false cs

def pyIsTitle (s : List Char) : Bool := pyIsTitleGo false false s

/-- Python `str.isupper`: at least one cased character and no lowercase one. -/
def pyIsUpper (s : List Char) : Bool :=
  s.any isCasedC && s.all (fun c => !isLowerC c)

/-- Python `str.strip` (no argument): trim whitespace at both ends. -/
def pyStrip (s : List Char) : List Char :=
  ((s.dropWhile isPySpace).reverse.dropWhile isPySpace).reverse

/-- Python `str.split` (no argument): split on whitespace runs, dropping
empty pieces. -/
def pySplitGo : List Char → List Char → List (List Char)
  | acc, [] => if acc.isEmpty then [] else [acc.reverse]
  | acc, c :: cs =>
      if isPySpace c then
        if acc.isEmpty then pySplitGo [] cs
        else acc.reverse :: pySplitGo [] cs
      else pySplitGo (c :: acc) cs

def pySplit (s : List Char) : List (List Char) := pySplitGo [] s

/-- `lit` is a leading piece of the second list. -/
def startsWithL : List Char → List Char → Bool
  | [], _ => true
  | _ :: _, [] => false
  | a :: as, b :: bs => a = b && startsWithL as bs

/-! ### Static tables of `KazakhToBashkirCorrector.__init__` -/

/-- Built-in default for `preserve_қ_words` (used when the external word
list is absent or loads empty). -/
def default_preserve_q_words : List String :=
  ["қашмау", "Қашмау", "қойрук", "Қойрук",
   "қойылған", "Қойылған", "қойылхан", "Қойылхан"]

/-- Built-in default for `preserve_і_words`. -/
def default_preserve_i_words : List String :=
  ["мінен", "Мінен", "бірге", "Бірге",
   "әлікле", "Әлікле", "әликли", "Әликли"]

/-- `self.word_dictionary`: complete word mappings (Kazakh → Bashkir), in
source insertion order. -/
def word_dictionary : List (String × String) :=
  [("бұл", "был"), ("Бұл", "Был"),
   ("осы", "был"), ("Осы", "Был"),
   ("мен", "мин"), ("Мен", "Мин"),
   ("менің", "миниң"), ("Менің", "Миниң"),
   ("сен", "һин"), ("Сен", "Һин"),
   ("сенің", "һинең"), ("Сенің", "Һинең"),
   ("ол", "ул"), ("Ол", "Ул"),
   ("оның", "уның"), ("Оның", "Уның"),
   ("біз", "беҙ"), ("Біз", "Беҙ"),
   ("біздің", "беҙҙең"), ("Біздің", "Беҙҙең"),
   ("сіз", "һеҙ"), ("Сіз", "Һеҙ"),
   ("сіздің", "һеҙҙең"), ("Сіздің", "Һеҙҙең"),
   ("олар", "улар"), ("Олар", "Улар"),
   ("олардың", "уларҙың"), ("Олардың", "Уларҙың"),
   ("немау", "нимау"), ("Немау", "Нимау"),
   ("немене", "нимә"), ("Немене", "Нимә"),
   ("қалай", "ҡалай"), ("Қалай", "Ҡалай"),
   ("қайда", "ҡайҙа"), ("Қайда", "Ҡайҙа"),
   ("қашан", "ҡасан"), ("Қашан", "Ҡасан"),
   ("неге", "ниңә"), ("Неге", "Ниңә"),
   ("не", "нәмә"), ("Не", "Нәмә"),
   ("болды", "булды"), ("Болды", "Булды"),
   ("болады", "була"), ("Болады", "Була"),
   ("етеді", "итә"), ("Етеді", "Итә"),
   ("керек", "кәрәк"), ("Керек", "Кәрәк"),
   ("бар", "бар"), ("Бар", "Бар"),
   ("жоқ", "юҡ"), ("Жоқ", "Юҡ"),
   ("деді", "әйтте"), ("Деді", "Әйтте"),
   ("деп", "тип"), ("Деп", "Тип"),
   ("адам", "кеше"), ("Адам", "Кеше"),
   ("өмір", "ғүмер"), ("Өмір", "Ғүмер"),
   ("қала", "ҡала"), ("Қала", "Ҡала"),
   ("ауыл", "ауыл"), ("Ауыл", "Ауыл"),
   ("тіл", "тел"), ("Тіл", "Тел"),
   ("сөз", "һүҙ"), ("Сөз", "Һүҙ"),
   ("үй", "өй"), ("Үй", "Өй"),
   ("кітап", "китап"), ("Кітап", "Китап"),
   ("бала", "бала"), ("Бала", "Бала"),
   ("қыз", "ҡыҙ"), ("Қыз", "Ҡыҙ")]

/-- `self.char_map`: single character replacements, in source insertion
order (includes the identity entries the source lists). -/
def char_map : List (Char × Char) :=
  [('ұ', 'у'), ('Ұ', 'У'),
   ('ү', 'ө'), ('Ү', 'Ө'),
   ('і', 'е'), ('І', 'Е'),
   ('ә', 'ә'), ('Ә', 'Ә'),
   ('ө', 'ө'), ('Ө', 'Ө'),
   ('ғ', 'ғ'), ('Ғ', 'Ғ'),
   ('ң', 'ң'), ('Ң', 'Ң'),
   ('һ', 'һ'), ('Һ', 'Һ')]

/-- `self.grammar_patterns`: word-ending rewrites `lit\b → rep`, in source
order. -/
def grammar_patterns : List (String × String) :=
  [("ның", "ның"), ("нің", "нең"),
   ("дың", "ҙың"), ("дің", "ҙең"),
   ("тың", "тың"), ("тің", "тең"),
   ("ды", "ҙы"), ("ді", "ҙе"),
   ("ты", "ты"), ("ті", "те"),
   ("ны", "ны"), ("ні", "не"),
   ("ға", "ға"), ("ге", "гә"),
   ("қа", "ҡа"), ("ке", "кә"),
   ("да", "ҙа"), ("де", "ҙә"),
   ("та", "та"), ("те", "тә"),
   ("дан", "ҙан"), ("ден", "ҙән"),
   ("тан", "тан"), ("тен", "тән"),
   ("нан", "нан"), ("нен", "нән")]

/-- `self.proper_nouns`, in source insertion order. -/
def proper_nouns : List (String × String) :=
  [("башқорт", "Башҡорт"), ("башкорт", "Башҡорт"),
   ("татар", "Татар"), ("қазақ", "Ҡазаҡ"),
   ("казақ", "Ҡазаҡ"), ("қырғыз", "Ҡырғыҙ"),
   ("қазақстан", "Ҡазаҡстан"), ("орыс", "Урыҫ"),
   ("рус", "Урыҫ"), ("өзбек", "Үзбәк"),
   ("төрек", "Төрөк"), ("монғол", "Мунғал")]

/-- The consonant class of the `қ` context rules
(`бвгджзйлмнпрстфхцчшщң`). -/
def consonantSet : List Char :=
  ['б', 'в', 'г', 'д', 'ж', 'з', 'й', 'л', 'м', 'н', 'п', 'р', 'с', 'т',
   'ф', 'х', 'ц', 'ч', 'ш', 'щ', 'ң']

/-- The vowel class of the intervocalic `қ` rule (`аәоөуүыиеэ`). -/
def vowelSet : List Char :=
  ['а', 'ә', 'о', 'ө', 'у', 'ү', 'ы', 'и', 'е', 'э']

/-- Back vowels of `_fix_vowel_harmony` (`аоуы`). -/
def backVowels : List Char := ['а', 'о', 'у', 'ы']

/-- Front vowels of `_fix_vowel_harmony` (`әөүие`). -/
def frontVowels : List Char := ['ә', 'ө', 'ү', 'и', 'е']

/-- `back_vowel_patterns` of `_fix_vowel_harmony`: front ending after a
back vowel is rewritten to the back ending (literal, replacement). -/
def back_vowel_patterns : List (String × String) :=
  [("гә", "га"), ("кә", "ка"), ("ҙә", "ҙа"), ("тә", "та"),
   ("нән", "нан"), ("ҙән", "ҙан"), ("тән", "тан")]

/-- `front_vowel_patterns` of `_fix_vowel_harmony`: back ending after a
front vowel is rewritten to the front ending. -/
def front_vowel_patterns : List (String × String) :=
  [("га", "гә"), ("ка", "кә"), ("ҙа", "ҙә"), ("та", "тә"),
   ("нан", "нән"), ("ҙан", "ҙән"), ("тан", "тән")]

/-! ### Regex scanners (Python `re.sub` semantics) -/

/-- The punctuation class `,.!?;:` used by `_normalize_text` and
`_apply_final_formatting` (both list the same six characters). -/
def punctClass : List Char := [',', '.', '!', '?', ';', ':']

/-- Sentence-terminal class `[.!?]`. -/
def termClass : List Char := ['.', '!', '?']

/-- `re.sub(r'\s+', ' ', s)`. -/
def sub_ws_runs : Nat → List Char → List Char
  | 0, s => s
  | _, [] => []
  | f + 1, c :: cs =>
      if isPySpace c then ' ' :: sub_ws_runs f (cs.dropWhile isPySpace)
      else c :: sub_ws_runs f cs

/-- `re.sub(r'\s([,\.!?;:])', r'\1', s)`: drop a single whitespace directly
before punctuation; the match consumes both characters. -/
def sub_space_before_punct : Nat → List Char → List Char
  | 0, s => s
  | _, [] => []
  | f + 1, c :: cs =>
      match cs with
      | [] => [c]
      | d :: ds =>
          if isPySpace c && punctClass.contains d then
            d :: sub_space_before_punct f ds
          else c :: sub_space_before_punct f (d :: ds)

/-- `re.sub(r'([,\.!?;:])([^\s])', r'\1 \2', s)`: insert a space between
punctuation and a following non-space; both matched characters are
consumed, so scanning resumes after the second one. -/
def sub_space_after_punct : Nat → List Char → List Char
  | 0, s => s
  | _, [] => []
  | f + 1, c :: cs =>
      match cs with
      | [] => [c]
      | d :: ds =>
          if punctClass.contains c && !isPySpace d then
            c :: ' ' :: d :: sub_space_after_punct f ds
          else c :: sub_space_after_punct f (d :: ds)

/-- Helper for the bracket-stripping rules: the suffix after the first
`close` character, provided no newline intervenes (`.` in Python regexes
does not match a newline). -/
def afterClose (close : Char) : List Char → Option (List Char)
  | [] => none
  | c :: cs =>
      if c = close then some cs
      else if c = '\n' then none
      else afterClose close cs

/-- `re.sub(r'\[.*?\]', '', s)` / `re.sub(r'\(.*?\)', '', s)`: delete a
non-greedy bracketed span, delimiters included. -/
def sub_bracketed (opn close : Char) : Nat → List Char → List Char
  | 0, s => s
  | _, [] => []
  | f + 1, c :: cs =>
      if c = opn then
        match afterClose close cs with
        | some rest => sub_bracketed opn close f rest
        | none => c :: sub_bracketed opn close f cs
      else c :: sub_bracketed opn close f cs

/-- `unicodedata.normalize('NFC', text)`.  Every character the corrector's
tables, rules and fixtures mention is a precomposed Cyrillic letter or
ASCII, on which canonical composition is the identity; the embedding
therefore models the library call as the identity function. -/
def nfc (s : List Char) : List Char := s

/-- `KazakhToBashkirCorrector._normalize_text`. -/
def normalize_text (s : List Char) : List Char :=
  let t0 := nfc s
  let t1 := sub_ws_runs t0.length t0
  let t2 := sub_space_before_punct t1.length t1
  let t3 := sub_space_after_punct t2.length t2
  let t4 := sub_bracketed '[' ']' t3.length t3
  let t5 := sub_bracketed '(' ')' t4.length t4
  pyStrip t5

/-! ### Stage 2: dictionary substitution -/

def char_map_keys : List Char := char_map.map (fun p => p.1)

/-- Leading-punctuation strip of `_apply_dictionary`: peel characters that
are neither alphanumeric nor `char_map` keys; returns (peeled, rest). -/
def stripLead : List Char → List Char × List Char
  | [] => ([], [])
  | c :: cs =>
      if !pyIsAlnum c && !char_map_keys.contains c then
        let (p, r) := stripLead cs
        (c :: p, r)
      else ([], c :: cs)

/-- Trailing-punctuation strip (same predicate, from the right). -/
def stripTrail (s : List Char) : List Char × List Char :=
  let (sufRev, coreRev) := stripLead s.reverse
  (coreRev.reverse, sufRev.reverse)

/-- Dictionary lookup by exact (already lowercased) key. -/
def dictLookup (w : List Char) : Option (List Char) :=
  match word_dictionary.find? (fun p => p.1.data == w) with
  | some p => some p.2.data
  | none => none

/-- Per-token body of `_apply_dictionary`'s loop. -/
def process_token (w : List Char) : List Char :=
  let (pre, w1) := stripLead w
  let (core, suf) := stripTrail w1
  let replaced :=
    match dictLookup (pyLower core) with
    | some rep =>
        if pyIsTitle core then pyTitle rep
        else if pyIsUpper core then pyUpper rep
        else rep
    | none => core
  pre ++ replaced ++ suf

/-- `KazakhToBashkirCorrector._apply_dictionary`. -/
def apply_dictionary (s : List Char) : List Char :=
  List.intercalate [' '] ((pySplit s).map process_token)

/-! ### Stage 3: character substitution -/

/-- The `for kazakh_char, bashkir_char in self.char_map.items()` loop:
each entry is a global single-character replace, applied in map order,
each feeding the next. -/
def apply_char_map (s : List Char) : List Char :=
  char_map.foldl (fun acc p => acc.map (fun c => if c = p.1 then p.2 else c)) s

/-- `re.sub(r'(\b|[consonants])Q', r'\1R', s)`: `Q` at a word boundary or
after a consonant from the fixed set becomes `R`.  Matching is over the
original text, so `prev` tracks the original character before the scan
position (for `\b`). -/
def sub_q_boundary (Q R : Char) : Nat → Option Char → List Char → List Char
  | 0, _, s => s
  | _, _, [] => []
  | f + 1, prev, c :: cs =>
      let boundary := match prev with
        | none => true
        | some p => !isWordChar p
      if c = Q && boundary then
        R :: sub_q_boundary Q R f (some c) cs
      else if consonantSet.contains c then
        match cs with
        | d :: ds =>
            if d = Q then c :: R :: sub_q_boundary Q R f (some d) ds
            else c :: sub_q_boundary Q R f (some c) cs
        | [] => [c]
      else c :: sub_q_boundary Q R f (some c) cs

/-- `re.sub(r'([vowels])Q([vowels])', r'\1X\2', s)`: intervocalic `Q`
becomes `X`; the match consumes all three characters. -/
def sub_q_intervocalic (Q X : Char) : Nat → List Char → List Char
  | 0, s => s
  | _, [] => []
  | f + 1, c :: cs =>
      match cs with
      | d :: e :: rest =>
          if vowelSet.contains c && d = Q && vowelSet.contains e then
            c :: X :: e :: sub_q_intervocalic Q X f rest
          else c :: sub_q_intervocalic Q X f (d :: e :: rest)
      | _ => c :: sub_q_intervocalic Q X f cs

/-- `re.sub(r'Q\b', 'R', s)`: word-final `Q` becomes `R`. -/
def sub_q_final (Q R : Char) : Nat → List Char → List Char
  | 0, s => s
  | _, [] => []
  | f + 1, c :: cs =>
      let boundary := match cs.head? with
        | none => true
        | some d => !isWordChar d
      if c = Q && boundary then R :: sub_q_final Q R f cs
      else c :: sub_q_final Q R f cs

/-- `KazakhToBashkirCorrector._apply_char_replacements`. -/
def apply_char_replacements (s : List Char) : List Char :=
  let r0 := apply_char_map s
  let r1 := sub_q_boundary 'қ' 'ҡ' r0.length none r0
  let r2 := sub_q_boundary 'Қ' 'Ҡ' r1.length none r1
  let r3 := sub_q_intervocalic 'қ' 'х' r2.length r2
  let r4 := sub_q_intervocalic 'Қ' 'Х' r3.length r3
  let r5 := sub_q_final 'қ' 'ҡ' r4.length r4
  sub_q_final 'Қ' 'Ҡ' r5.length r5

/-! ### Stage 4: grammar patterns and vowel harmony -/

/-- Whether a word boundary sits between the end of a just-matched literal
(whose last character is a word character) and the remaining text. -/
def boundaryAfter (rest : List Char) : Bool :=
  match rest.head? with
  | none => true
  | some d => !isWordChar d

/-- `re.sub(lit + r'\b', rep, s)` for a literal of word characters: the
literal is replaced wherever it is followed by a word boundary (no
boundary is required before it). -/
def sub_ending (lit rep : List Char) : Nat → List Char → List Char
  | 0, s => s
  | _, [] => []
  | f + 1, c :: cs =>
      if startsWithL lit (c :: cs) && boundaryAfter ((c :: cs).drop lit.length) then
        rep ++ sub_ending lit rep f ((c :: cs).drop lit.length)
      else c :: sub_ending lit rep f cs

/-- `re.sub(r'([cls])lit\b', r'\1rep', s)`: the class character is kept,
the literal is rewritten when a word boundary follows. -/
def sub_harmony (cls : List Char) (lit rep : List Char) :
    Nat → List Char → List Char
  | 0, s => s
  | _, [] => []
  | f + 1, c :: cs =>
      if cls.contains c && startsWithL lit cs && boundaryAfter (cs.drop lit.length) then
        c :: rep ++ sub_harmony cls lit rep f (cs.drop lit.length)
      else c :: sub_harmony cls lit rep f cs

/-- `KazakhToBashkirCorrector._fix_vowel_harmony`: the seven
back-vowel patterns, then the seven front-vowel patterns, each a global
substitution feeding the next. -/
def fix_vowel_harmony (s : List Char) : List Char :=
  let afterBack := back_vowel_patterns.foldl
    (fun acc p => sub_harmony backVowels p.1.data p.2.data acc.length acc) s
  front_vowel_patterns.foldl
    (fun acc p => sub_harmony frontVowels p.1.data p.2.data acc.length acc)
    afterBack

/-- `KazakhToBashkirCorrector._apply_grammar_corrections`. -/
def apply_grammar_corrections (s : List Char) : List Char :=
  let afterPatterns := grammar_patterns.foldl
    (fun acc p => sub_ending p.1.data p.2.data acc.length acc) s
  fix_vowel_harmony afterPatterns

/-! ### Stage 5: proper nouns -/

/-- `re.sub(rf'\b{word}\b', rep, s)` for a literal word of word
characters: boundaries are required on both sides; `prev` is the original
character before the scan position. -/
def sub_whole_word (word rep : List Char) :
    Nat → Option Char → List Char → List Char
  | 0, _, s => s
  | _, _, [] => []
  | f + 1, prev, c :: cs =>
      let boundary := match prev with
        | none => true
        | some p => !isWordChar p
      if boundary && startsWithL word (c :: cs) &&
          boundaryAfter ((c :: cs).drop word.length) then
        rep ++ sub_whole_word word rep f (some (word.getLastD c))
          ((c :: cs).drop word.length)
      else c :: sub_whole_word word rep f (some c) cs

/-- `KazakhToBashkirCorrector._capitalize_proper_nouns`: for each entry,
substitute the word and then its title-cased form, both whole-word. -/
def capitalize_proper_nouns (s : List Char) : List Char :=
  proper_nouns.foldl
    (fun acc p =>
      let w := p.1.data
      let acc1 := sub_whole_word w p.2.data acc.length none acc
      sub_whole_word (pyTitle w) p.2.data acc1.length none acc1)
    s

/-! ### Stage 6: sentence capitalization -/

/-- `re.split(r'([.!?]+\s*)', text)`: alternating sentence bodies and
captured delimiters (a maximal run of `.!?` plus following whitespace). -/
def splitSentences : Nat → List Char → List Char → List (List Char)
  | 0, acc, s => [acc.reverse ++ s]
  | _, acc, [] => [acc.reverse]
  | f + 1, acc, c :: cs =>
      if termClass.contains c then
        let run := (c :: cs).takeWhile (fun d => termClass.contains d)
        let rest := (c :: cs).dropWhile (fun d => termClass.contains d)
        let ws := rest.takeWhile isPySpace
        let rest2 := rest.dropWhile isPySpace
        acc.reverse :: (run ++ ws) :: splitSentences f [] rest2
      else splitSentences f (c :: acc) cs

/-- `sentence[0].upper() + sentence[1:]`. -/
def capFirst : List Char → List Char
  | [] => []
  | c :: cs => upperChar c :: cs

/-- The reassembly loop of `_apply_sentence_capitalization`: capitalize
each even-indexed part, append the following delimiter if present. -/
def joinCapitalized : List (List Char) → List Char
  | [] => []
  | [s] => capFirst s
  | s :: p :: rest => capFirst s ++ p ++ joinCapitalized rest

/-- `KazakhToBashkirCorrector._apply_sentence_capitalization`. -/
def apply_sentence_capitalization (s : List Char) : List Char :=
  if s.isEmpty then s
  else joinCapitalized (splitSentences s.length [] s)

/-! ### Stage 7: final formatting -/

/-- `re.sub(r'\s*([,.:;!?])\s*', r'\1 ', s)`: a punctuation character with
any surrounding whitespace becomes the character plus one space.  A match
starts at the scan position exactly when the whitespace run from there is
followed by a punctuation character. -/
def sub_punct_spacing : Nat → List Char → List Char
  | 0, s => s
  | _, [] => []
  | f + 1, c :: cs =>
      match (c :: cs).dropWhile isPySpace with
      | d :: ds =>
          if punctClass.contains d then
            d :: ' ' :: sub_punct_spacing f (ds.dropWhile isPySpace)
          else c :: sub_punct_spacing f cs
      | [] => c :: sub_punct_spacing f cs

/-- `re.sub(r'([.!?]){2,}', r'\1', s)`: a run of two or more
sentence-terminal characters collapses to the last one of the run (the
repeated group captures its final repetition). -/
def sub_collapse_terminal : Nat → List Char → List Char
  | 0, s => s
  | _, [] => []
  | f + 1, c :: cs =>
      if termClass.contains c &&
          (match cs.head? with
           | some d => termClass.contains d
           | none => false) then
        let run := (c :: cs).takeWhile (fun d => termClass.contains d)
        let rest := (c :: cs).dropWhile (fun d => termClass.contains d)
        run.getLastD c :: sub_collapse_terminal f rest
      else c :: sub_collapse_terminal f cs

/-- `KazakhToBashkirCorrector._apply_final_formatting`. -/
def apply_final_formatting (s : List Char) : List Char :=
  let r1 := sub_punct_spacing s.length s
  let r2 := sub_space_after_punct r1.length r1
  let r3 := sub_collapse_terminal r2.length r2
  let r4 := sub_ws_runs r3.length r3
  pyStrip r4

/-! ### Public operations -/

/-- `KazakhToBashkirCorrector.correct_orthography`: the staged pipeline.
Whitespace-only input is returned unchanged; the `aggressive` flag is
accepted and ignored, exactly as in the source. -/
def correct_orthography (text : String) (aggressive : Bool) : String :=
  if (pyStrip text.data).isEmpty then text
  else
    let r0 := normalize_text text.data
    let r1 := apply_dictionary r0
    let r2 := apply_char_replacements r1
    let r3 := apply_grammar_corrections r2
    let r4 := capitalize_proper_nouns r3
    let r5 := apply_sentence_capitalization r4
    String.mk (apply_final_formatting r5)

/-- `KazakhToBashkirCorrector.batch_correct`. -/
def batch_correct (texts : List String) (aggressive : Bool) : List String :=
  texts.map (fun text => correct_orthography text aggressive)

/-! ### Word-list loading and construction (`__init__`, `_load_word_list`) -/

/-- Outcome of opening and reading an optional word-list file.  `absent`:
the file does not exist; `failedAfter ws`: reading raised after the words
`ws` had already been added (the exception is caught and only a warning is
printed); `ok lines`: the raw lines of the file. -/
inductive FileOutcome where
  | absent : FileOutcome
  | failedAfter : List String → FileOutcome
  | ok : List String → FileOutcome

/-- `KazakhToBashkirCorrector._load_word_list`: never raises; returns the
stripped non-empty lines, the words gathered before a read failure, or the
empty set when the file is absent. -/
def load_word_list : FileOutcome → List String
  | FileOutcome.absent => []
  | FileOutcome.failedAfter ws => ws
  | FileOutcome.ok lines =>
      (lines.map (fun l => String.mk (pyStrip l.data))).filter (fun w => w ≠ "")

/-- The three preserve-word sets held by a constructed corrector. -/
structure CorrectorWordSets where
  preserve_q_words : List String
  preserve_i_words : List String
  preserve_e_words : List String

/-- The word-list part of `KazakhToBashkirCorrector.__init__`: load the
three optional lists, then fall back to the built-in defaults — the
source provides a default only for the `қ` and `і` sets. -/
def init_word_sets (fq fi fe : FileOutcome) : CorrectorWordSets :=
  let q := load_word_list fq
  let i := load_word_list fi
  let e := load_word_list fe
  { preserve_q_words := if q.isEmpty then default_preserve_q_words else q
    preserve_i_words := if i.isEmpty then default_preserve_i_words else i
    preserve_e_words := e }

/-! ### The regression fixture of `run_test_cases` (second test case) -/

/-- The input of the second test case in `run_test_cases`. -/
def fixtureInput : String :=
  "Менің атым Айдар. Мен қазақпын, бірақ башқорт тілін үйренемін. Бұл қиын ма? Жоқ, қызықты!"

/-- The expected output recorded for that test case. -/
def fixtureExpected : String :=
  "Миниң атым Айдар. Мин ҡазаҡмын, бәраҡ Башҡорт телен өйрәнәм. Был ҡиын мы? Юҡ, ҡызыҡты!"

/-- What the pipeline actually produces on `fixtureInput`. -/
def fixtureActual : String :=
  "Миниң атым Айдар. Мин ҡазақпын, бераҡ башҡорт телен өйренемен. Был ҡиын ма? Юҡ, ҡызықты!"

/-! ### Spec-side definition for the refinement claim about the character map -/

/-- The value the Character Map assigns to a single character (characters
outside the map are unchanged). -/
def char_map_apply (c : Char) : Char :=
  match char_map.find? (fun p => c == p.1) with
  | some p => p.2
  | none => c

/-- Modelled from the spec: the Character Map applied with simultaneous
per-character substitution semantics — every character is replaced
according to the map in one pass, and no replaced character is itself
re-replaced by a later entry. -/
def char_map_simultaneous (s : List Char) : List Char :=
  s.map char_map_apply

/-! ### Invariants of the final-formatting scanners -/

/-- Every punctuation character (class `,.!?;:`) is immediately followed
by a plain space. -/
def punctSpaced : List Char → Prop
  | [] => True
  | [c] => c ∉ punctClass
  | c :: d :: rest => (c ∈ punctClass → d = ' ') ∧ punctSpaced (d :: rest)

/-! ### Helper lemmas -/

/-- A fold of per-entry global single-character replaces acts on a cons
cell as the per-character fold on the head and the list fold on the
tail. -/
theorem foldl_char_replaces_cons (es : List (Char × Char)) (c : Char)
    (cs : List Char) :
    es.foldl (fun acc p => acc.map (fun x => if x = p.1 then p.2 else x)) (c :: cs) =
      es.foldl (fun a p => if a = p.1 then p.2 else a) c ::
        es.foldl (fun acc p => acc.map (fun x => if x = p.1 then p.2 else x)) cs := by
  induction es generalizing c cs with
  | nil => rfl
  | cons e es ih =>
      simp only [List.foldl_cons, List.map_cons]
      exact ih _ _

/-- Chaining the sixteen character-map entries over one character agrees
with a single map lookup: no entry's output is a later entry's input
except under an identity entry. -/
theorem char_map_chain_eq_apply (c : Char) :
    char_map.foldl (fun a p => if a = p.1 then p.2 else a) c = char_map_apply c := by
  by_cases h1 : c = 'ұ'; · subst h1; rfl
  by_cases h2 : c = 'Ұ'; · subst h2; rfl
  by_cases h3 : c = 'ү'; · subst h3; rfl
  by_cases h4 : c = 'Ү'; · subst h4; rfl
  by_cases h5 : c = 'і'; · subst h5; rfl
  by_cases h6 : c = 'І'; · subst h6; rfl
  by_cases h7 : c = 'ә'; · subst h7; rfl
  by_cases h8 : c = 'Ә'; · subst h8; rfl
  by_cases h9 : c = 'ө'; · subst h9; rfl
  by_cases h10 : c = 'Ө'; · subst h10; rfl
  by_cases h11 : c = 'ғ'; · subst h11; rfl
  by_cases h12 : c = 'Ғ'; · subst h12; rfl
  by_cases h13 : c = 'ң'; · subst h13; rfl
  by_cases h14 : c = 'Ң'; · subst h14; rfl
  by_cases h15 : c = 'һ'; · subst h15; rfl
  by_cases h16 : c = 'Һ'; · subst h16; rfl
  have hf : char_map.find? (fun p => c == p.1) = none := by
    rw [List.find?_eq_none]
    intro x hx
    fin_cases hx <;>
      simp [beq_iff_eq, h1, h2, h3, h4, h5, h6, h7, h8, h9, h10, h11, h12,
        h13, h14, h15, h16]
  simp only [char_map, List.foldl_cons, List.foldl_nil, if_neg h1, if_neg h2,
    if_neg h3, if_neg h4, if_neg h5, if_neg h6, if_neg h7, if_neg h8,
    if_neg h9, if_neg h10, if_neg h11, if_neg h12, if_neg h13, if_neg h14,
    if_neg h15, if_neg h16]
  simp only [char_map_apply, hf]

/-- Whitespace characters are not in the punctuation class. -/
theorem space_not_punct (c : Char) (h : isPySpace c = true) :
    c ∉ punctClass := by
  have hm : c ∈ pySpaceChars := List.mem_of_elem_eq_true h
  fin_cases hm <;> decide

/-- Terminal punctuation is punctuation. -/
theorem term_in_punct (c : Char) (h : c ∈ termClass) : c ∈ punctClass := by
  fin_cases h <;> decide

/-- `punctSpaced` is preserved by consing a non-punctuation character. -/
theorem punctSpaced_cons (c : Char) (rest : List Char)
    (hc : c ∉ punctClass) (h : punctSpaced rest) :
    punctSpaced (c :: rest) := by
  cases rest with
  | nil => exact hc
  | cons d ds => exact ⟨fun hcp => absurd hcp hc, h⟩

/-- `punctSpaced` is preserved by consing any character followed by a
space. -/
theorem punctSpaced_cons_space (d : Char) (rest : List Char)
    (h : punctSpaced rest) :
    punctSpaced (d :: ' ' :: rest) := by
  refine ⟨fun _ => rfl, ?_⟩
  cases rest with
  | nil => exact (by decide : (' ' : Char) ∉ punctClass)
  | cons e es => exact ⟨fun hsp => absurd hsp (by decide), h⟩

/-- The spacing pass of `_apply_final_formatting` leaves every punctuation
character followed by a space (fuel permitting, as at its call site). -/
theorem punctSpaced_sub_punct_spacing :
    ∀ (f : Nat) (s : List Char), s.length ≤ f →
      punctSpaced (sub_punct_spacing f s) := by
  intro f
  induction f with
  | zero =>
      intro s hs
      have hnil : s = [] := List.length_eq_zero.mp (Nat.le_zero.mp hs)
      subst hnil
      exact trivial
  | succ f ih =>
      intro s hs
      match s with
      | [] => exact trivial
      | c :: cs =>
          have hlen : cs.length ≤ f := Nat.le_of_succ_le_succ (by simpa using hs)
          cases hD : (c :: cs).dropWhile isPySpace with
          | nil =>
              have hstep : sub_punct_spacing (f + 1) (c :: cs) =
                  c :: sub_punct_spacing f cs := by
                simp only [sub_punct_spacing, hD]
              have hc : isPySpace c = true := by
                by_contra hcc
                rw [List.dropWhile_cons] at hD
                simp [Bool.eq_false_iff.mpr hcc] at hD
              rw [hstep]
              exact punctSpaced_cons c _ (space_not_punct c hc) (ih cs hlen)
          | cons d ds =>
              by_cases hp : d ∈ punctClass
              · have hstep : sub_punct_spacing (f + 1) (c :: cs) =
                    d :: ' ' :: sub_punct_spacing f (ds.dropWhile isPySpace) := by
                  simp only [sub_punct_spacing, hD]
                  simp [hp]
                rw [hstep]
                apply punctSpaced_cons_space
                apply ih
                have h1 : (d :: ds).length ≤ (c :: cs).length := by
                  rw [← hD]
                  exact List.Sublist.length_le (List.dropWhile_sublist _)
                have h2 : ds.length ≤ f := by
                  have h3 : ds.length + 1 ≤ cs.length + 1 := by simpa using h1
                  exact le_trans (Nat.le_of_succ_le_succ h3) hlen
                exact le_trans (List.Sublist.length_le (List.dropWhile_sublist _)) h2
              · have hstep : sub_punct_spacing (f + 1) (c :: cs) =
                    c :: sub_punct_spacing f cs := by
                  simp only [sub_punct_spacing, hD]
                  simp [hp]
                rw [hstep]
                by_cases hc : isPySpace c = true
                · exact punctSpaced_cons c _ (space_not_punct c hc) (ih cs hlen)
                · have hkeep : (c :: cs).dropWhile isPySpace = c :: cs := by
                    rw [List.dropWhile_cons]
                    simp [Bool.eq_false_iff.mpr hc]
                  rw [hkeep] at hD
                  have hdc : d = c := by injection hD with h1 _; exact h1.symm
                  subst hdc
                  exact punctSpaced_cons d _ hp (ih cs hlen)

/-- On a `punctSpaced` string, the space-insertion pass of
`_apply_final_formatting` is the identity. -/
theorem sub_space_after_punct_id :
    ∀ (f : Nat) (s : List Char), punctSpaced s →
      sub_space_after_punct f s = s := by
  intro f
  induction f with
  | zero => intro s _; cases s <;> rfl
  | succ f ih =>
      intro s h
      match s with
      | [] => rfl
      | [c] => rfl
      | c :: d :: ds =>
          have hcond : (punctClass.contains c && !isPySpace d) = false := by
            by_cases hcp : c ∈ punctClass
            · have hde : d = ' ' := h.1 hcp
              subst hde
              simp [isPySpace, pySpaceChars]
            · simp [hcp]
          have hstep : sub_space_after_punct (f + 1) (c :: d :: ds) =
              c :: sub_space_after_punct f (d :: ds) := by
            simp only [sub_space_after_punct, hcond]
            simp
          rw [hstep, ih _ h.2]

/-- On a `punctSpaced` string, the repeated-terminal-punctuation collapse
of `_apply_final_formatting` is the identity. -/
theorem sub_collapse_terminal_id :
    ∀ (f : Nat) (s : List Char), punctSpaced s →
      sub_collapse_terminal f s = s := by
  intro f
  induction f with
  | zero => intro s _; cases s <;> rfl
  | succ f ih =>
      intro s h
      match s with
      | [] => rfl
      | [c] =>
          have hstep : sub_collapse_terminal (f + 1) [c] =
              c :: sub_collapse_terminal f [] := by
            simp only [sub_collapse_terminal]
            simp
          rw [hstep]
          cases f <;> rfl
      | c :: d :: ds =>
          have hcond : (termClass.contains c && termClass.contains d) = false := by
            by_cases htc : c ∈ termClass
            · have hde : d = ' ' := h.1 (term_in_punct c htc)
              subst hde
              simp [termClass]
            · simp [htc]
          have hstep : sub_collapse_terminal (f + 1) (c :: d :: ds) =
              c :: sub_collapse_terminal f (d :: ds) := by
            simp only [sub_collapse_terminal, List.head?_cons]
            rw [hcond]
            simp
          rw [hstep, ih _ h.2]

/-! ### Claim theorems -/

/-- C9: the character-map stage has simultaneous-substitution semantics —
applying the sixteen character-map entries one after another (each global
replace feeding the next) produces exactly the same string as a single
simultaneous per-character substitution in which no replaced character is
itself re-replaced by a later entry. -/
theorem char_map_sequential_eq_simultaneous (s : List Char) :
    apply_char_map s = char_map_simultaneous s := by
  induction s with
  | nil => rfl
  | cons c cs ih =>
      calc apply_char_map (c :: cs)
          = char_map.foldl (fun a p => if a = p.1 then p.2 else a) c ::
              apply_char_map cs := foldl_char_replaces_cons char_map c cs
        _ = char_map_apply c :: char_map_simultaneous cs := by
              rw [char_map_chain_eq_apply, ih]
        _ = char_map_simultaneous (c :: cs) := rfl

/-- C7: the `aggressive` flag is a no-op — `correct_orthography` and
`batch_correct` produce identical output for either flag value, on every
input. -/
theorem aggressive_flag_is_noop :
    (∀ (text : String) (a b : Bool),
      correct_orthography text a = correct_orthography text b) ∧
    (∀ (texts : List String) (a b : Bool),
      batch_correct texts a = batch_correct texts b) :=
  ⟨fun _ _ _ => rfl, fun _ _ _ => rfl⟩

set_option maxRecDepth 100000 in
/-- Evaluation helper: the pipeline's output on the regression fixture. -/
theorem fixture_eval : correct_orthography fixtureInput false = fixtureActual := rfl

set_option maxRecDepth 100000 in
/-- Evaluation helper: the pipeline's output is a fixed point of the
pipeline. -/
theorem fixture_actual_fixed :
    correct_orthography fixtureActual false = fixtureActual := rfl

/-- C1 (code bug): the pipeline does not map the repository's own
regression-fixture input to the expected output recorded next to it in
`run_test_cases`; it produces `fixtureActual` instead, which differs from
`fixtureExpected` in six words. -/
theorem fixture_acceptance_test_fails :
    correct_orthography fixtureInput false = fixtureActual ∧
    fixtureActual ≠ fixtureExpected :=
  ⟨fixture_eval, by decide⟩

/-- C2 (counterexample): `correct_orthography` returns the all-spaces
string unchanged, not the empty string claimed by the spec. -/
theorem whitespace_input_unchanged_cex :
    correct_orthography "   " false = "   " ∧ ("   " : String) ≠ "" :=
  ⟨rfl, by decide⟩

/-- C2 (amended): `correct_orthography` is total; the empty string maps to
itself and whitespace-only input is returned verbatim (the guard
`if not text.strip(): return text` returns the input, not the empty
string). -/
theorem trivial_inputs_returned_verbatim :
    correct_orthography "" false = "" ∧
    correct_orthography "   " false = "   " ∧
    correct_orthography "\t\n" false = "\t\n" :=
  ⟨rfl, rfl, rfl⟩

set_option maxRecDepth 8000 in
/-- C3 (counterexample): `бірге` belongs to the built-in `і` preserve set,
yet the pipeline still applies the general `і → е` substitution inside it:
the output of `correct_orthography` contains no `і` at all. -/
theorem preserve_word_still_substituted_cex :
    "бірге" ∈ default_preserve_i_words ∧
    'і' ∈ "бірге".data ∧
    correct_orthography "бірге" false = "Бергә" ∧
    'і' ∉ (correct_orthography "бірге" false).data := by
  refine ⟨by decide, by decide, rfl, ?_⟩
  decide

/-- C3 (amended): the three preserve-word sets are loaded at construction
but never consulted by any pipeline stage; every word of the two built-in
default sets has all of its ambiguous letters (`қ`/`Қ`, `і`/`І`) rewritten
by the character-substitution stage, exactly like any other word. -/
theorem preserve_sets_not_consulted (w : String)
    (h : w ∈ default_preserve_q_words ∨ w ∈ default_preserve_i_words) :
    'қ' ∉ apply_char_replacements w.data ∧
    'Қ' ∉ apply_char_replacements w.data ∧
    'і' ∉ apply_char_replacements w.data ∧
    'І' ∉ apply_char_replacements w.data := by
  have hall : ∀ v ∈ default_preserve_q_words ++ default_preserve_i_words,
      'қ' ∉ apply_char_replacements v.data ∧
      'Қ' ∉ apply_char_replacements v.data ∧
      'і' ∉ apply_char_replacements v.data ∧
      'І' ∉ apply_char_replacements v.data := by decide
  exact hall w (List.mem_append.mpr h)

/-- C3 (witness): the amended theorem applied to `бірге`. -/
theorem preserve_sets_not_consulted_witness :
    'і' ∉ apply_char_replacements "бірге".data :=
  (preserve_sets_not_consulted "бірге" (Or.inr (by decide))).2.2.1

set_option maxRecDepth 8000 in
/-- C4 (counterexample): `correct_orthography` is not idempotent — the
character stage turns `мін` into `мен`, which the dictionary stage of a
second run replaces by `мин`. -/
theorem correct_not_idempotent_cex :
    correct_orthography "мін" false = "Мен" ∧
    correct_orthography (correct_orthography "мін" false) false = "Мин" ∧
    ("Мин" : String) ≠ "Мен" :=
  ⟨rfl, rfl, by decide⟩

/-- C4 (amended): a second application of the pipeline changes nothing on
representative already-corrected text — in particular on the pipeline's own
output for the regression fixture — but not on every string. -/
theorem correct_idempotent_on_fixture :
    correct_orthography (correct_orthography fixtureInput false) false =
      correct_orthography fixtureInput false := by
  rw [fixture_eval]
  exact fixture_actual_fixed

/-- C5 (counterexample): the vowel-harmony repair does not scan backward
over consonants to the stem's last vowel: in `өлга` the stem's last vowel
`ө` is front and the ending `га` is the back variant, yet nothing is
rewritten because the character directly before the ending is the
consonant `л`. -/
theorem vowel_harmony_no_backward_scan_cex :
    fix_vowel_harmony "өлга".data = "өлга".data ∧
    fix_vowel_harmony "өлга".data ≠ "өлгә".data := by
  refine ⟨by rfl, ?_⟩
  decide

/-- C5 (amended): the vowel-harmony repair keys on the single character
immediately preceding the ending: for every documented ending pair and
every vowel of the opposite harmonic class directly before it, the ending
is rewritten to the consistent variant (stems whose last vowel is
separated from the ending by a consonant are not repaired). -/
theorem vowel_harmony_adjacent_vowel_only (v : Char) (lit rep : String)
    (h : (v ∈ backVowels ∧ (lit, rep) ∈ back_vowel_patterns) ∨
         (v ∈ frontVowels ∧ (lit, rep) ∈ front_vowel_patterns)) :
    fix_vowel_harmony ('т' :: v :: lit.data) = 'т' :: v :: rep.data := by
  rcases h with ⟨hv, hp⟩ | ⟨hv, hp⟩
  · have hall : ∀ a ∈ backVowels, ∀ p ∈ back_vowel_patterns,
        fix_vowel_harmony ('т' :: a :: p.1.data) = 'т' :: a :: p.2.data := by
      decide
    exact hall v hv (lit, rep) hp
  · have hall : ∀ a ∈ frontVowels, ∀ p ∈ front_vowel_patterns,
        fix_vowel_harmony ('т' :: a :: p.1.data) = 'т' :: a :: p.2.data := by
      decide
    exact hall v hv (lit, rep) hp

/-- C5 (witness): the amended theorem applied to the back vowel `а` and
the dative pair `гә`/`га`. -/
theorem vowel_harmony_adjacent_vowel_only_witness :
    fix_vowel_harmony ('т' :: 'а' :: "гә".data) = 'т' :: 'а' :: "га".data :=
  vowel_harmony_adjacent_vowel_only 'а' "гә" "га" (Or.inl ⟨by decide, by decide⟩)

set_option maxRecDepth 8000 in
/-- C6 (counterexample): a sentence ending in `!!!` does not come out with
a single `!` — all three marks survive, separated by the spaces the
spacing pass inserted. -/
theorem repeated_terminal_punct_not_collapsed_cex :
    correct_orthography "Жоқ!!!" false = "Юҡ! ! !" ∧
    ((correct_orthography "Жоқ!!!" false).data.count '!') = 3 := by
  refine ⟨rfl, ?_⟩
  decide

set_option maxRecDepth 8000 in
/-- C6 (amended): final formatting never collapses repeated terminal
punctuation: the spacing pass puts one space after every punctuation mark
first, after which both the space-insertion and the collapse regex are
identities — `_apply_final_formatting` equals the spacing pass followed by
whitespace collapsing and trimming alone.  A run such as `!!!` therefore
survives as `! ! !`. -/
theorem final_formatting_never_collapses :
    (∀ s : List Char, apply_final_formatting s =
      pyStrip (sub_ws_runs (sub_punct_spacing s.length s).length
        (sub_punct_spacing s.length s))) ∧
    correct_orthography "Жоқ!!!" false = "Юҡ! ! !" := by
  constructor
  · intro s
    have hps : punctSpaced (sub_punct_spacing s.length s) :=
      punctSpaced_sub_punct_spacing s.length s le_rfl
    show pyStrip (sub_ws_runs _ (sub_collapse_terminal _
        (sub_space_after_punct _ (sub_punct_spacing s.length s)))) = _
    rw [sub_space_after_punct_id _ _ hps, sub_collapse_terminal_id _ _ hps]
  · rfl

/-- C8 (counterexample): with all three word-list files absent, the `қ`
and `і` sets fall back to non-empty built-in defaults, but the `е` set has
no built-in default at all — it is left empty. -/
theorem preserve_e_has_no_default_cex :
    (init_word_sets FileOutcome.absent FileOutcome.absent
        FileOutcome.absent).preserve_e_words = [] ∧
    (init_word_sets FileOutcome.absent FileOutcome.absent
        FileOutcome.absent).preserve_q_words ≠ [] ∧
    (init_word_sets FileOutcome.absent FileOutcome.absent
        FileOutcome.absent).preserve_i_words ≠ [] := by
  refine ⟨rfl, ?_, ?_⟩ <;> decide

/-- C8 (amended): word-list loading is non-fatal and construction always
completes: an absent or failed-and-empty load of the `қ` or `і` list falls
back to that set's built-in default, while the `е` set simply keeps
whatever the loader returned (the empty set when its file is absent). -/
theorem word_list_loading_falls_back (fq fi fe : FileOutcome)
    (ws : List String) :
    (init_word_sets FileOutcome.absent fi fe).preserve_q_words =
      default_preserve_q_words ∧
    (init_word_sets (FileOutcome.failedAfter []) fi fe).preserve_q_words =
      default_preserve_q_words ∧
    (init_word_sets fq FileOutcome.absent fe).preserve_i_words =
      default_preserve_i_words ∧
    (init_word_sets fq (FileOutcome.failedAfter []) fe).preserve_i_words =
      default_preserve_i_words ∧
    (init_word_sets fq fi FileOutcome.absent).preserve_e_words = [] ∧
    (init_word_sets fq fi (FileOutcome.failedAfter ws)).preserve_e_words = ws :=
  ⟨rfl, rfl, rfl, rfl, rfl, rfl⟩

/-- C10: when two occurrences of `қ` share a flanking vowel (a
vowel-қ-vowel-қ-vowel run), the character-substitution stage rewrites only
the first occurrence to `х`; the second remains `қ` — the intervocalic
rule matches left to right without overlap and the word-final rule does
not apply before a word character.  (The flanking vowels themselves pass
through the character map, which is the identity on all of them except
`ү → ө`.) -/
theorem intervocalic_q_no_overlap (v1 v2 v3 : Char)
    (h1 : v1 ∈ vowelSet) (h2 : v2 ∈ vowelSet) (h3 : v3 ∈ vowelSet) :
    apply_char_replacements [v1, 'қ', v2, 'қ', v3] =
      [char_map_apply v1, 'х', char_map_apply v2, 'қ', char_map_apply v3] := by
  have hall : ∀ a ∈ vowelSet, ∀ b ∈ vowelSet, ∀ c ∈ vowelSet,
      apply_char_replacements [a, 'қ', b, 'қ', c] =
        [char_map_apply a, 'х', char_map_apply b, 'қ', char_map_apply c] := by
    decide
  exact hall v1 h1 v2 h2 v3 h3

/-- C10 (witness): the run `ақақа` becomes `ахақа`. -/
theorem intervocalic_q_no_overlap_witness :
    apply_char_replacements ['а', 'қ', 'а', 'қ', 'а'] =
      ['а', 'х', 'а', 'қ', 'а'] := by
  have h := intervocalic_q_no_overlap 'а' 'а' 'а' (by decide) (by decide)
    (by decide)
  rw [h]
  rfl

end K2B
